import Mathlib

/-!
Verification of the wasm request executor of `structuredhttp`
(`request_run_wasm.go`).

The file shallowly embeds the functions of that source file:

* `promiseHack`  — the DeferredBridge: registers a `catch` callback and then
  a `then` callback on the promise returned by `catch`, and polls a shared
  cell until one of them marks it done;
* `runSignal` / `Run` — the RequestExecutor: short-circuit on a stored
  construction error, timeout-signal selection, fetch-argument construction
  (including the unconditional `createReadableStream` call and the
  GET/HEAD `delete(FetchArgs, "body")`), and the host `fetch` call;
* `streamStep` / `pullChunks` — the OutgoingStreamAdapter
  (`createReadableStream`): the chunk-producing callback that reads up to
  100 bytes per pull and closes the stream on a read error;
* `blobRead` / `readSeq` — the IncomingStreamAdapter (`blobReader.Read`);
* `goHeaders` / `canonicalMIMEHeaderKey` — the header mapping built with
  Go's `http.Header.Set` (MIME canonicalisation as in `net/textproto`);
* `fetch2http` — the ResponseAdapter.

Bytes are modelled as `Nat` (byte values), byte strings as `List Nat`,
Go `error` values as `Option String` (`none` is the nil error, `some msg`
an error whose `Error()` string is `msg`), and Go `time.Duration` as `Int`
(the claims never depend on the nanosecond/millisecond conversion, so the
raw duration is carried around).
-/

namespace StructuredHttp

/-! ### DeferredBridge: `promiseHack`

`promiseHack` attaches a rejection handler with `Call("catch", ...)` and a
resolution handler on the promise *returned by `catch`* with
`Call("then", ...)`.  Each handler writes into the shared cell
`(done, res, err)`; the Go loop polls `done` and returns `(res, err)`.

A settled promise is modelled by `Settlement`: either resolved with a value
of type `α`, or rejected.  A rejection carries `Option Payload`: `none`
models the handler being invoked with no argument (`len(args) == 0` in the
Go code), `some p` an argument whose `message` property is `p.message`
(`none` when the property is `undefined`) and whose `String(...)` coercion
is `p.coerced`.

Because `then` is chained on the promise returned by `catch`, a rejection
runs *both* handlers: `catch` records the error, its promise resolves with
the handler's `undefined` return value, and `then` then overwrites `res`
with that `undefined` (modelled as `none`) — without touching `err`.
-/

/-- Rejection payload as observed by the `catch` callback: the value of its
`message` property (`none` when undefined) and its `String(...)` coercion. -/
structure Payload where
  message : Option String
  coerced : String
  deriving DecidableEq

/-- A settled promise: resolved with a value, or rejected with an optional
payload (`rejected none` models a rejection callback invoked with no
arguments at all). -/
inductive Settlement (α : Type) where
  | resolved (v : α)
  | rejected (payload : Option Payload)
  deriving DecidableEq

/-- The cell shared between the Go poll loop and the JS callbacks:
`done`, `res` (a `js.Value`; `none` models the zero value / `undefined`)
and `err`. -/
structure HackState (α : Type) where
  done : Bool
  res : Option α
  err : Option String
  deriving DecidableEq

/-- The body of the `catch` callback: set `done`, and set `err` to
`errors.New("")` when no argument was supplied, otherwise to the
argument's `message` property if defined, else to its string coercion. -/
def catchStep {α : Type} (st : HackState α) (args : Option Payload) : HackState α :=
  { st with
    done := true
    err := some (match args with
      | none => ""
      | some p =>
        match p.message with
        | none => p.coerced
        | some m => m) }

/-- The body of the `then` callback: set `done` and record `args[0]` as the
result. -/
def thenStep {α : Type} (st : HackState α) (v : Option α) : HackState α :=
  { st with done := true, res := v }

/-- The DeferredBridge.  On resolution only the `then` callback runs, with
the resolved value; on rejection the `catch` callback runs and then the
`then` callback runs with `undefined` (the `catch` handler's return value),
since `then` was registered on the promise returned by `catch`.  The poll
loop then returns `(res, err)`. -/
def promiseHack {α : Type} (s : Settlement α) : Option α × Option String :=
  let st0 : HackState α := { done := false, res := none, err := none }
  let st :=
    match s with
    | .resolved v => thenStep st0 (some v)
    | .rejected p => thenStep (catchStep st0 p) none
  (st.res, st.err)

/-- C4: DeferredBridge behaviour on every settlement shape: a resolved
deferred yields the callback-provided value and a nil error; a rejection
whose payload has a `message` field yields an error carrying that message;
a rejection whose payload lacks a `message` field yields an error carrying
the payload's string coercion; a rejection with no payload at all yields a
non-nil error with an empty description. -/
theorem promiseHack_settlement_shapes {α : Type} :
    (∀ v : α, promiseHack (Settlement.resolved v) = (some v, none))
    ∧ (∀ m coerced : String,
        promiseHack (α := α) (Settlement.rejected (some ⟨some m, coerced⟩)) = (none, some m))
    ∧ (∀ coerced : String,
        promiseHack (α := α) (Settlement.rejected (some ⟨none, coerced⟩)) = (none, some coerced))
    ∧ promiseHack (α := α) (Settlement.rejected none) = (none, some "") := by
  refine ⟨fun v => rfl, fun m coerced => rfl, fun coerced => rfl, rfl⟩

/-- C9: every rejection produces a non-nil error.  The `then` callback —
registered on the promise returned by the rejection handler — also fires
after a rejection and overwrites `res` with the handler's `undefined`
return value, but the error recorded by the `catch` callback is never
cleared and is what the caller receives. -/
theorem promiseHack_rejected_err_nonnil {α : Type} :
    ∀ p : Option Payload,
      (promiseHack (α := α) (Settlement.rejected p)).2 ≠ none
      ∧ (promiseHack (α := α) (Settlement.rejected p)).1 = none := by
  intro p
  cases p with
  | none => exact ⟨fun h => by simp [promiseHack, thenStep, catchStep] at h, rfl⟩
  | some q =>
    refine ⟨fun h => ?_, rfl⟩
    cases q with
    | mk msg coerced =>
      cases msg <;> simp [promiseHack, thenStep, catchStep] at h

/-! ### RequestExecutor: `Run`

`Run` is embedded up to and including the host `fetch` call, as an effect
trace plus a result.  The host-visible effects, in the order the Go code
performs them, are: `createSignal` (one `setTimeout`-armed
`AbortController`, recorded with the duration it was armed from),
`createReadableStream` (recorded with the reader it was built over —
`none` is a nil `io.Reader`, `some bs` a byte reader holding `bs`), and
the `fetch` call itself with its arguments.  The result is `some e` when
`Run` returns `(nil, error)` before the fetch (the stored construction
error path), `none` when it reaches the fetch call; the response path
after a resolved fetch is embedded separately by `fetch2http`. -/

/-- Modelled from the spec: the `Request` structure is declared in a
repository file outside this source file; its fields are those of §3 of
the design (method, URL, headers, optional body reader, optional per-call
timeout, stored construction error), exactly the fields `Run` reads.
`CurrentReader = none` is a nil `io.Reader`; `some bs` a byte reader over
the bytes `bs`.  `CurrentTimeout` is the optional per-call duration,
`Error` the stored construction error. -/
structure Request where
  Error : Option String
  CurrentTimeout : Option Int
  CurrentReader : Option (List Nat)
  Method : String
  Headers : List (String × String)
  URL : String
  deriving DecidableEq

/-- Host-visible effects of `Run`, in program order. -/
inductive RunEffect where
  | createdSignal (d : Int)
  | constructedStream (r : Option (List Nat))
  | calledFetch (url : String) (method : String) (headers : List (String × String))
      (signalArmed : Bool) (body : Option (Option (List Nat)))
  deriving DecidableEq

/-- The `Signal` selection of `Run` (lines 181–186): use the process-wide
default only when the request carries no explicit timeout and the default
is non-zero; use an explicit timeout only when it is non-zero; otherwise
leave the signal `js.Undefined()` (`none`).  `some d` means
`createSignal` was called with duration `d`, i.e. an armed
`AbortController` was created. -/
def runSignal (ct : Option Int) (dflt : Int) : Option Int :=
  if ct = none ∧ dflt ≠ 0 then some dflt
  else
    match ct with
    | some t => if t ≠ 0 then some t else none
    | none => none

/-- The local `Reader` variable of `Run` (lines 189–192): `r.CurrentReader`
with a nil reader replaced by `strings.NewReader("")`.  In the source this
variable is dead: the `body` fetch argument is built from
`r.CurrentReader` itself, not from `Reader`. -/
def runLocalReader (r : Request) : Option (List Nat) :=
  match r.CurrentReader with
  | none => some []
  | some x => some x

/-- The RequestExecutor, embedded through the host `fetch` call: stored
construction error short-circuit, signal selection, unconditional
`createReadableStream(r.CurrentReader)` while building `FetchArgs`,
`delete(FetchArgs, "body")` for GET/HEAD, then the `fetch` call.  Returns
the effect trace and `some e` for the early `(nil, *r.Error)` return,
`none` once the fetch was issued. -/
def Run (r : Request) (DefaultTimeout : Int) : List RunEffect × Option String :=
  match r.Error with
  | some e => ([], some e)
  | none =>
    let Signal := runSignal r.CurrentTimeout DefaultTimeout
    let signalEffects : List RunEffect :=
      match Signal with
      | some d => [RunEffect.createdSignal d]
      | none => []
    -- FetchArgs gets "body": createReadableStream(r.CurrentReader) — note:
    -- not the fallback `runLocalReader r` the source computes and drops.
    let body0 : Option (Option (List Nat)) := some r.CurrentReader
    let body := if r.Method = "GET" ∨ r.Method = "HEAD" then none else body0
    (signalEffects
        ++ [RunEffect.constructedStream r.CurrentReader,
            RunEffect.calledFetch r.URL r.Method r.Headers Signal.isSome body],
      none)

/-- A GET request carrying a body reader (bytes "hi"), used to exhibit the
unconditional stream construction. -/
def reqGetWithBody : Request :=
  { Error := none, CurrentTimeout := none, CurrentReader := some [104, 105]
    Method := "GET", Headers := [], URL := "http://example.test" }

/-- C1 counterexample: for a GET request carrying a body reader, `Run`
does construct a body stream (the `createReadableStream` call happens
while the fetch arguments are being built, before the GET/HEAD deletion),
so the claim that no body stream is ever constructed for GET/HEAD is
false. -/
theorem run_get_constructs_stream :
    RunEffect.constructedStream (some [104, 105]) ∈ (Run reqGetWithBody 0).1 := by
  decide

/-- C1 amended: for every GET or HEAD request, the fetch call never
carries a body (the `"body"` key is deleted from the arguments before the
host call), although a body stream is still constructed while the
arguments are built whenever `Run` reaches that point. -/
theorem run_get_head_never_sends_body (r : Request) (dflt : Int)
    (h : r.Method = "GET" ∨ r.Method = "HEAD") :
    (∀ u m hs a b, RunEffect.calledFetch u m hs a b ∈ (Run r dflt).1 → b = none)
    ∧ (r.Error = none → RunEffect.constructedStream r.CurrentReader ∈ (Run r dflt).1) := by
  constructor
  · intro u m hs a b hb
    cases hE : r.Error with
    | some e => simp [Run, hE] at hb
    | none =>
      simp only [Run, hE] at hb
      rcases List.mem_append.1 hb with hl | hr
      · cases hS : runSignal r.CurrentTimeout dflt <;> simp [hS] at hl
      · rcases List.mem_cons.1 hr with hc | hc
        · exact absurd hc (by simp)
        · have heq := List.mem_singleton.1 hc
          simp only [RunEffect.calledFetch.injEq] at heq
          obtain ⟨-, -, -, -, hb5⟩ := heq
          simpa [if_pos h] using hb5
  · intro hE
    simp [Run, hE]

/-- C1 witness: the amended theorem applied to the concrete GET request. -/
theorem run_get_head_never_sends_body_witness :
    RunEffect.constructedStream reqGetWithBody.CurrentReader ∈ (Run reqGetWithBody 0).1 :=
  (run_get_head_never_sends_body reqGetWithBody 0 (Or.inl rfl)).2 rfl

/-- C3: an explicit timeout of zero never creates an armed cancellation
signal, whatever the process-wide default is; and whenever an explicit
timeout is present, any signal `Run` arms is armed from that explicit
value, never from the default. -/
theorem run_zero_timeout_no_signal (r : Request) (dflt : Int) :
    (r.CurrentTimeout = some 0 → ∀ d, RunEffect.createdSignal d ∉ (Run r dflt).1)
    ∧ (∀ t d, r.CurrentTimeout = some t →
        RunEffect.createdSignal d ∈ (Run r dflt).1 → d = t) := by
  constructor
  · intro hct d hmem
    cases hE : r.Error with
    | some e => simp [Run, hE] at hmem
    | none =>
      simp only [Run, hE] at hmem
      rcases List.mem_append.1 hmem with hl | hr
      · rw [show runSignal r.CurrentTimeout dflt = none by simp [runSignal, hct]] at hl
        simp at hl
      · simp at hr
  · intro t d hct hmem
    cases hE : r.Error with
    | some e => simp [Run, hE] at hmem
    | none =>
      simp only [Run, hE] at hmem
      rcases List.mem_append.1 hmem with hl | hr
      · rw [show runSignal r.CurrentTimeout dflt
            = (if t ≠ 0 then some t else none) by simp [runSignal, hct]] at hl
        by_cases ht : t = 0 <;> simp [ht] at hl
        omega
      · simp at hr

/-- A request with an explicit zero timeout, run under a non-zero
process-wide default. -/
def reqZeroTimeout : Request :=
  { Error := none, CurrentTimeout := some 0, CurrentReader := none
    Method := "POST", Headers := [], URL := "http://example.test" }

/-- C3 witness: with an explicit zero timeout and default 5, no armed
signal with duration 5 (nor any other) appears in the trace. -/
theorem run_zero_timeout_no_signal_witness :
    RunEffect.createdSignal 5 ∉ (Run reqZeroTimeout 5).1 :=
  (run_zero_timeout_no_signal reqZeroTimeout 5).1 rfl 5

/-- A non-GET request with a nil body reader: the failing input for the
dead-fallback defect. -/
def reqPostNilReader : Request :=
  { Error := none, CurrentTimeout := none, CurrentReader := none
    Method := "POST", Headers := [], URL := "http://example.test" }

/-- C7: evaluation at the failing input.  The source computes the
empty-reader fallback into the local `Reader` (here `runLocalReader`,
which is `some []`) but passes `r.CurrentReader` to
`createReadableStream`, so the stream is built over the nil reader
(`none`) and not over the empty reader the fallback produced. -/
theorem run_post_nil_reader_stream_over_nil :
    RunEffect.constructedStream none ∈ (Run reqPostNilReader 0).1
    ∧ RunEffect.constructedStream (runLocalReader reqPostNilReader)
        ∉ (Run reqPostNilReader 0).1
    ∧ runLocalReader reqPostNilReader = some [] := by
  refine ⟨by decide, by decide, rfl⟩

/-- C8: a request carrying a stored construction error returns that error
(with a nil response) immediately: the effect trace is empty, so no
cancellation handle, no body stream and no host networking call is
created. -/
theorem run_stored_error_short_circuits (r : Request) (dflt : Int) (e : String)
    (h : r.Error = some e) :
    Run r dflt = ([], some e) := by
  unfold Run
  rw [h]

/-- A request carrying a stored construction error. -/
def reqWithError : Request :=
  { Error := some "bad url", CurrentTimeout := none, CurrentReader := none
    Method := "GET", Headers := [], URL := "" }

/-- C8 witness: the short-circuit theorem applied to a concrete request
with a stored error. -/
theorem run_stored_error_short_circuits_witness :
    Run reqWithError 0 = ([], some "bad url") :=
  run_stored_error_short_circuits reqWithError 0 "bad url" rfl

/-! ### OutgoingStreamAdapter: `createReadableStream`

The stream's chunk producer (the inner callback built by `start`) performs
`n, err := r.Read(b)` on a 100-byte buffer; on an error it closes the
stream, otherwise it enqueues the first `n` bytes read as one
`Uint8Array` chunk and stays ready for the next invocation.  The local
byte sources `Run` hands to it (`strings.NewReader`, `bytes.Reader`) have
the semantics of `byteRead`: data while bytes remain, then `(0, io.EOF)`. -/

/-- One `Read(b)` call on a byte reader holding `rem`, with `len(b) = blen`
(`strings.Reader` semantics): `(bytes read, remaining bytes, error)`. -/
def byteRead (blen : Nat) (rem : List Nat) : List Nat × List Nat × Option String :=
  if rem = [] then ([], [], some "EOF")
  else (rem.take blen, rem.drop blen, none)

/-- One invocation of the chunk-producing callback of
`createReadableStream`: read up to 100 bytes; on a read error close the
stream (`none`), otherwise enqueue exactly the bytes read as one chunk and
return the reader's new state. -/
def streamStep (rem : List Nat) : Option (List Nat × List Nat) :=
  match byteRead 100 rem with
  | (_, _, some _) => none
  | (chunk, rest, none) => some (chunk, rest)

/-- All chunks the host obtains by invoking the chunk producer until it
closes the stream. -/
def pullChunks (rem : List Nat) : List (List Nat) :=
  match h : streamStep rem with
  | none => []
  | some (c, rest) => c :: pullChunks rest
termination_by rem.length
decreasing_by
  simp only [streamStep, byteRead] at h
  by_cases hne : rem = []
  · simp [hne] at h
  · rw [if_neg hne] at h
    simp only [Option.some.injEq, Prod.mk.injEq] at h
    obtain ⟨-, hrest⟩ := h
    subst hrest
    have : 0 < rem.length := List.length_pos.2 hne
    simp only [List.length_drop]
    omega

/-- The chunk producer closes the stream exactly when the source reader is
exhausted (its `Read` then returns `io.EOF`). -/
theorem streamStep_none_iff (x : List Nat) : streamStep x = none ↔ x = [] := by
  constructor
  · intro h
    by_contra hne
    simp [streamStep, byteRead, hne] at h
  · intro h
    subst h
    rfl

/-- On a non-exhausted reader the chunk producer enqueues the first (up to)
100 remaining bytes and leaves the rest in the reader. -/
theorem streamStep_some (x c rest : List Nat) (h : streamStep x = some (c, rest)) :
    x ≠ [] ∧ c = x.take 100 ∧ rest = x.drop 100 := by
  by_cases hne : x = []
  · subst hne
    simp [streamStep, byteRead] at h
  · simp only [streamStep, byteRead, if_neg hne, Option.some.injEq, Prod.mk.injEq] at h
    exact ⟨hne, h.1.symm, h.2.symm⟩

/-- C6: round-trip through the OutgoingStreamAdapter — concatenating all
chunks the host pulls until the stream closes reproduces the source byte
sequence exactly, whatever the 100-byte chunk boundaries cut it into. -/
theorem pullChunks_flatten (bs : List Nat) : (pullChunks bs).flatten = bs := by
  induction bs using pullChunks.induct with
  | case1 x h =>
    have hx : x = [] := (streamStep_none_iff x).1 h
    subst hx
    rw [pullChunks.eq_def]
    split
    · rfl
    · next c rest heq => rw [h] at heq; exact absurd heq (by simp)
  | case2 x c rest h ih =>
    obtain ⟨hne, hc, hrest⟩ := streamStep_some x c rest h
    rw [pullChunks.eq_def]
    split
    · next heq => rw [heq] at h; exact absurd h (by simp)
    · next c2 rest2 heq =>
      rw [h] at heq
      simp only [Option.some.injEq, Prod.mk.injEq] at heq
      obtain ⟨hc2, hrest2⟩ := heq
      subst hc2; subst hrest2
      rw [List.flatten_cons, ih, hc, hrest]
      exact List.take_append_drop 100 x

/-! ### IncomingStreamAdapter: `blobReader.Read`

Each `Read(p)` performs one host `read()` pull through `promiseHack`.  A
mock stream that always resolves is modelled by its remaining chunk list:
`[]` means the host has marked the stream done (`{done: true}`), and a
pull consumes one whole chunk.  The Go code then returns `(0, nil)` when
done, and otherwise `js.CopyBytesToGo(p, value)` — which copies
`min(len(p), len(chunk))` bytes and returns that count; the rest of the
chunk is not retained anywhere. -/

/-- One `blobReader.Read` call with a caller buffer of length `plen`
against a mock host stream holding `chunks`: returns `((bytes copied into
the buffer, error), remaining host chunks)`. -/
def blobRead (plen : Nat) (chunks : List (List Nat)) :
    (List Nat × Option String) × List (List Nat) :=
  match chunks with
  | [] => (([], none), [])
  | c :: rest => ((c.take plen, none), rest)

/-- Read the mock stream through `blobReader.Read` once per entry of
`sizes`, each entry being that call's buffer length; returns the result of
every call in order. -/
def readSeq (sizes : List Nat) (chunks : List (List Nat)) :
    List (List Nat × Option String) :=
  match sizes with
  | [] => []
  | s :: rest =>
    let r := blobRead s chunks
    r.1 :: readSeq rest r.2

/-- The mock incoming stream of the claim: chunks "ab" then "cde", then
done. -/
def mockChunks : List (List Nat) := [[97, 98], [99, 100, 101]]

/-- C2 counterexample: with caller buffers of length 1 the adapter loses
bytes — five one-byte reads of the mock stream ["ab", "cde"] deliver only
"ac" (each pull consumes a whole host chunk but copies only
`min(len(p), len(chunk))` bytes), not the five bytes "abcde". -/
theorem readSeq_unit_buffers_lose_bytes :
    ((readSeq [1, 1, 1, 1, 1] mockChunks).map Prod.fst).flatten = [97, 99]
    ∧ [97, 99] ≠ [97, 98, 99, 100, 101] := by
  exact ⟨by decide, by decide⟩

/-- C2 amended: reading the mock stream ["ab", "cde"]-then-done through
`blobReader.Read` yields exactly "ab", then "cde", then a zero-byte
end-of-data read (returned with a nil error), with no bytes lost,
duplicated or reordered, for every sequence of caller buffers at least as
large as the chunk each one pulls (first ≥ 2, second ≥ 3). -/
theorem readSeq_mock_exact (s1 s2 s3 : Nat) (h1 : 2 ≤ s1) (h2 : 3 ≤ s2) :
    readSeq [s1, s2, s3] mockChunks
      = [([97, 98], none), ([99, 100, 101], none), ([], none)] := by
  simp only [readSeq, blobRead, mockChunks]
  rw [List.take_of_length_le (by simpa using h1),
    List.take_of_length_le (by simpa using h2)]

/-- C2 witness: the amended theorem at buffer sizes 2, 3, 8. -/
theorem readSeq_mock_exact_witness :
    readSeq [2, 3, 8] mockChunks
      = [([97, 98], none), ([99, 100, 101], none), ([], none)] :=
  readSeq_mock_exact 2 3 8 (by decide) (by decide)

/-! ### ResponseAdapter headers: `goHeaders` and `http.Header.Set`

`goHeaders` iterates the host response's header entries with
`headers.forEach` and stores each with `http.Header.Set(name, value)`.
Go's `Header.Set` stores under `textproto.CanonicalMIMEHeaderKey(name)`
and replaces any previous value for that key.  Header names are byte
strings (`List Nat`); the host enumeration is a `List (List Nat × String)`
in enumeration order. -/

/-- Go `net/textproto` `validHeaderFieldByte`: the HTTP token bytes —
digits, letters, and `!#$%&'*+-.^_` backquote `|~`. -/
def validHeaderFieldByte (c : Nat) : Bool :=
  (48 ≤ c && c ≤ 57) || (65 ≤ c && c ≤ 90) || (97 ≤ c && c ≤ 122) ||
  (c == 33) || (c == 35) || (c == 36) || (c == 37) || (c == 38) || (c == 39) ||
  (c == 42) || (c == 43) || (c == 45) || (c == 46) || (c == 94) || (c == 95) ||
  (c == 96) || (c == 124) || (c == 126)

/-- One byte of MIME canonicalisation: uppercase a lowercase letter at the
start of a dash-separated word, lowercase an uppercase letter elsewhere,
leave every other byte alone (97–122 are `a`–`z`, 65–90 are `A`–`Z`, the
case distance is 32). -/
def canonChar (upper : Bool) (c : Nat) : Nat :=
  if upper ∧ 97 ≤ c ∧ c ≤ 122 then c - 32
  else if ¬upper ∧ 65 ≤ c ∧ c ≤ 90 then c + 32
  else c

/-- The canonicalisation scan: `upper` tells whether the next byte starts a
dash-separated word; after emitting a byte the flag is whether that byte
was `-` (byte 45). -/
def canonSeq : Bool → List Nat → List Nat
  | _, [] => []
  | upper, c :: rest => canonChar upper c :: canonSeq (canonChar upper c == 45) rest

/-- Go `textproto.CanonicalMIMEHeaderKey`: a key containing any byte that
is not a valid header-field byte is returned unchanged; otherwise it is
rewritten to canonical word-capitalised form. -/
def canonicalMIMEHeaderKey (s : List Nat) : List Nat :=
  if s.all validHeaderFieldByte then canonSeq true s else s

/-- ASCII lowercasing of one byte. -/
def lowerB (c : Nat) : Nat := if 65 ≤ c ∧ c ≤ 90 then c + 32 else c

/-- ASCII uppercasing of one byte. -/
def upperB (c : Nat) : Nat := if 97 ≤ c ∧ c ≤ 122 then c - 32 else c

/-- Go map update `h[key] = [v]` on the association-list model of
`http.Header`: replace the entry for `key` if present, append otherwise. -/
def setEntry : List (List Nat × String) → List Nat → String → List (List Nat × String)
  | [], k, v => [(k, v)]
  | (k2, v2) :: rest, k, v =>
    if k2 = k then (k, v) :: rest else (k2, v2) :: setEntry rest k v

/-- Go map lookup on the association-list model of `http.Header`. -/
def assocLookup : List (List Nat × String) → List Nat → Option String
  | [], _ => none
  | (k2, v2) :: rest, k => if k2 = k then some v2 else assocLookup rest k

/-- Go `http.Header.Set`: store under the MIME-canonical form of the
name, replacing any previous value. -/
def headerSet (h : List (List Nat × String)) (k : List Nat) (v : String) :
    List (List Nat × String) :=
  setEntry h (canonicalMIMEHeaderKey k) v

/-- Go `http.Header.Get`: look the MIME-canonical form of the name up. -/
def headerGet (h : List (List Nat × String)) (k : List Nat) : Option String :=
  assocLookup h (canonicalMIMEHeaderKey k)

/-- `goHeaders`: fold `h.Set(name, value)` over the host's header
enumeration, starting from the empty `http.Header{}`. -/
def goHeaders (entries : List (List Nat × String)) : List (List Nat × String) :=
  entries.foldl (fun h p => headerSet h p.1 p.2) []

/-- The value of the last enumerated entry whose canonical name is `ck`
(`none` when there is no such entry). -/
def lastValue (entries : List (List Nat × String)) (ck : List Nat) : Option String :=
  entries.foldl (fun acc p => if canonicalMIMEHeaderKey p.1 = ck then some p.2 else acc) none

/-- ASCII case folding determines ASCII uppercasing: bytes with the same
lowercase form have the same uppercase form. -/
theorem upperB_congr (a b : Nat) (h : lowerB a = lowerB b) : upperB a = upperB b := by
  unfold lowerB at h
  unfold upperB
  split_ifs at h ⊢ <;> omega

/-- On any byte, one canonicalisation step is plain ASCII uppercasing at a
word start and plain ASCII lowercasing elsewhere. -/
theorem canonChar_eq (u : Bool) (c : Nat) :
    canonChar u c = if u then upperB c else lowerB c := by
  cases u <;> simp [canonChar, upperB, lowerB]

/-- A canonicalisation step depends only on the byte's lowercase form. -/
theorem canonChar_congr (u : Bool) (a b : Nat) (h : lowerB a = lowerB b) :
    canonChar u a = canonChar u b := by
  rw [canonChar_eq, canonChar_eq]
  cases u
  · simpa using h
  · simpa using upperB_congr a b h

/-- The canonicalisation scan depends only on the bytes' lowercase forms. -/
theorem canonSeq_congr (s : List Nat) :
    ∀ (t : List Nat) (u : Bool), s.map lowerB = t.map lowerB → canonSeq u s = canonSeq u t := by
  induction s with
  | nil =>
    intro t u h
    have : t = [] := by
      cases t with
      | nil => rfl
      | cons b t2 => simp at h
    subst this
    rfl
  | cons a s2 ih =>
    intro t u h
    cases t with
    | nil => simp at h
    | cons b t2 =>
      simp only [List.map_cons, List.cons.injEq] at h
      obtain ⟨hab, hrest⟩ := h
      simp only [canonSeq]
      rw [canonChar_congr u a b hab]
      rw [ih t2 _ hrest]

/-- Two all-valid header names with the same lowercase form have the same
MIME canonical form. -/
theorem canonical_congr (s t : List Nat)
    (hs : s.all validHeaderFieldByte = true) (ht : t.all validHeaderFieldByte = true)
    (h : s.map lowerB = t.map lowerB) :
    canonicalMIMEHeaderKey s = canonicalMIMEHeaderKey t := by
  unfold canonicalMIMEHeaderKey
  rw [if_pos hs, if_pos ht]
  exact canonSeq_congr s t true h

/-- Looking up after a map update: the updated key reads back the new
value, every other key is unchanged. -/
theorem lookup_setEntry (hl : List (List Nat × String)) (k : List Nat) (v : String) :
    ∀ k2, assocLookup (setEntry hl k v) k2 = if k2 = k then some v else assocLookup hl k2 := by
  induction hl with
  | nil =>
    intro k2
    simp only [setEntry, assocLookup]
    by_cases hk : k2 = k
    · subst hk
      simp
    · rw [if_neg (fun hh => hk hh.symm), if_neg hk]
  | cons p rest ih =>
    intro k2
    obtain ⟨k3, v3⟩ := p
    simp only [setEntry]
    by_cases h3 : k3 = k
    · subst h3
      rw [if_pos rfl]
      simp only [assocLookup]
      by_cases hk : k3 = k2
      · subst hk
        simp
      · rw [if_neg hk, if_neg (fun hh => hk hh.symm), if_neg hk]
    · rw [if_neg h3]
      simp only [assocLookup]
      by_cases hk : k3 = k2
      · subst hk
        rw [if_pos rfl, if_neg (fun hh => h3 hh)]
        simp [assocLookup]
      · rw [if_neg hk, ih k2]
        by_cases hk2 : k2 = k
        · simp [hk2]
        · rw [if_neg hk2, if_neg hk2]
          simp [assocLookup, if_neg hk]

/-- Folding `Header.Set` over an enumeration, read back at any canonical
key, is the last enumerated value stored under that key. -/
theorem lookup_goHeaders_fold (entries : List (List Nat × String)) :
    ∀ (h : List (List Nat × String)) (ck : List Nat),
      assocLookup (entries.foldl (fun h p => headerSet h p.1 p.2) h) ck
        = entries.foldl (fun acc p => if canonicalMIMEHeaderKey p.1 = ck then some p.2 else acc)
            (assocLookup h ck) := by
  induction entries with
  | nil => intro h ck; rfl
  | cons p rest ih =>
    intro h ck
    simp only [List.foldl_cons]
    rw [ih]
    congr 1
    rw [headerSet, lookup_setEntry]
    by_cases hc : canonicalMIMEHeaderKey p.1 = ck
    · rw [if_pos hc.symm, if_pos hc]
    · rw [if_neg (fun hh => hc hh.symm), if_neg hc]

/-- `Header.Get` on the mapping `goHeaders` builds returns the value of
the last enumerated entry whose canonical name matches the query's
canonical name. -/
theorem headerGet_goHeaders (entries : List (List Nat × String)) (k : List Nat) :
    headerGet (goHeaders entries) k = lastValue entries (canonicalMIMEHeaderKey k) := by
  unfold headerGet goHeaders lastValue
  rw [lookup_goHeaders_fold]
  rfl

/-- A key present after a map update is the updated key or was already
present. -/
theorem mem_keys_setEntry (hl : List (List Nat × String)) (k : List Nat) (v : String)
    (x : List Nat) (hx : x ∈ (setEntry hl k v).map Prod.fst) :
    x = k ∨ x ∈ hl.map Prod.fst := by
  induction hl with
  | nil =>
    simp [setEntry] at hx
    exact Or.inl hx
  | cons p rest ih =>
    obtain ⟨k3, v3⟩ := p
    simp only [setEntry] at hx
    by_cases h3 : k3 = k
    · rw [if_pos h3] at hx
      simp only [List.map_cons, List.mem_cons] at hx
      rcases hx with h | h
      · exact Or.inl h
      · exact Or.inr (by simp only [List.map_cons, List.mem_cons]; exact Or.inr h)
    · rw [if_neg h3] at hx
      simp only [List.map_cons, List.mem_cons] at hx
      rcases hx with h | h
      · exact Or.inr (by simp [h])
      · rcases ih h with h1 | h2
        · exact Or.inl h1
        · exact Or.inr (by simp only [List.map_cons, List.mem_cons]; exact Or.inr h2)

/-- A map update keeps the keys distinct. -/
theorem nodup_setEntry (hl : List (List Nat × String)) (k : List Nat) (v : String)
    (hnd : (hl.map Prod.fst).Nodup) : ((setEntry hl k v).map Prod.fst).Nodup := by
  induction hl with
  | nil => simp [setEntry]
  | cons p rest ih =>
    obtain ⟨k3, v3⟩ := p
    simp only [List.map_cons, List.nodup_cons] at hnd
    obtain ⟨hk3, hrest⟩ := hnd
    simp only [setEntry]
    by_cases h3 : k3 = k
    · rw [if_pos h3]
      subst h3
      simp only [List.map_cons, List.nodup_cons]
      exact ⟨hk3, hrest⟩
    · rw [if_neg h3]
      simp only [List.map_cons, List.nodup_cons]
      refine ⟨?_, ih hrest⟩
      intro hmem
      rcases mem_keys_setEntry rest k v k3 hmem with h1 | h2
      · exact h3 h1
      · exact hk3 h2

/-- The mapping `goHeaders` builds holds at most one entry per key. -/
theorem nodup_goHeaders (entries : List (List Nat × String)) :
    ((goHeaders entries).map Prod.fst).Nodup := by
  suffices hgen : ∀ h0 : List (List Nat × String), (h0.map Prod.fst).Nodup →
      ((entries.foldl (fun h p => headerSet h p.1 p.2) h0).map Prod.fst).Nodup by
    exact hgen [] (by simp)
  induction entries with
  | nil => intro h0 hh; exact hh
  | cons p rest ih =>
    intro h0 hh
    simp only [List.foldl_cons]
    exact ih _ (nodup_setEntry h0 _ _ hh)

/-- C10: `goHeaders` stores names in MIME canonical form via
`http.Header.Set`.  Two host header names of valid token bytes that differ
only in letter case have equal canonical forms — so their entries collapse
onto one key; the produced mapping holds at most one entry per key; and a
`Header.Get`-style lookup of any name returns the value of the last
enumerated entry whose canonical name matches, making lookups effectively
case-insensitive with last-write-wins. -/
theorem goHeaders_canonical (es : List (List Nat × String)) (n1 n2 : List Nat)
    (h1 : n1.all validHeaderFieldByte = true) (h2 : n2.all validHeaderFieldByte = true)
    (hcase : n1.map lowerB = n2.map lowerB) :
    canonicalMIMEHeaderKey n1 = canonicalMIMEHeaderKey n2
    ∧ (∀ k, headerGet (goHeaders es) k = lastValue es (canonicalMIMEHeaderKey k))
    ∧ ((goHeaders es).map Prod.fst).Nodup :=
  ⟨canonical_congr n1 n2 h1 h2 hcase,
   fun k => headerGet_goHeaders es k,
   nodup_goHeaders es⟩

/-- Bytes of the header name "conTENT-tYpe". -/
def hdrNameMixed : List Nat := [99, 111, 110, 84, 69, 78, 84, 45, 116, 89, 112, 101]

/-- Bytes of the header name "Content-Type". -/
def hdrNameCanon : List Nat := [67, 111, 110, 116, 101, 110, 116, 45, 84, 121, 112, 101]

/-- C10 witness: the two spellings of Content-Type canonicalise
identically, and after storing both the lookup of either returns the last
enumerated value. -/
theorem goHeaders_canonical_witness :
    canonicalMIMEHeaderKey hdrNameMixed = canonicalMIMEHeaderKey hdrNameCanon
    ∧ headerGet (goHeaders [(hdrNameMixed, "text/html"), (hdrNameCanon, "text/plain")])
        hdrNameMixed = some "text/plain" := by
  have h := goHeaders_canonical [(hdrNameMixed, "text/html"), (hdrNameCanon, "text/plain")]
    hdrNameMixed hdrNameCanon (by decide) (by decide) (by decide)
  refine ⟨h.1, ?_⟩
  rw [h.2.1 hdrNameMixed]
  decide

/-! ### ResponseAdapter: `fetch2http`

`fetch2http` is modelled after the blob has been obtained (the
`promiseHack(fetch.Call("blob"))` success path; a failure there panics —
see the source's own "this is a bug" comment).  The host response carries
status, status text, the header enumeration and the blob: its declared
size and its chunk contents. -/

/-- The response body reader `fetch2http` attaches: either the
already-exhausted `ioutil.NopCloser(strings.NewReader(""))`, or a
`blobReader` over a freshly created host stream reader
(`blob.Call("stream").Call("getReader")`) holding the blob's chunks.
The `hostStream` constructor is the only place a host stream reader is
created. -/
inductive BodyModel where
  | emptyReader
  | hostStream (chunks : List (List Nat))
  deriving DecidableEq

/-- A settled host response with its materialised blob. -/
structure HostResponse where
  status : Int
  statusText : String
  headerEntries : List (List Nat × String)
  blobSize : Int
  blobChunks : List (List Nat)

/-- The Go `http.Response` fields `fetch2http` populates. -/
structure GoResponse where
  Status : String
  StatusCode : Int
  Header : List (List Nat × String)
  Body : BodyModel
  ContentLength : Int

/-- `fetch2http`: copy status and status text, build the headers with
`goHeaders`, and attach as body the empty reader when the blob size is
zero and a `blobReader` over a new host stream reader otherwise. -/
def fetch2http (f : HostResponse) : GoResponse :=
  { Status := f.statusText
    StatusCode := f.status
    Header := goHeaders f.headerEntries
    Body := if f.blobSize = 0 then BodyModel.emptyReader else BodyModel.hostStream f.blobChunks
    ContentLength := f.blobSize }

/-- One `Read` call on `strings.NewReader("")`: `(0, io.EOF)` whatever the
caller's buffer length is. -/
def emptyReaderRead (_plen : Nat) : List Nat × Option String := ([], some "EOF")

/-- C5: a host response with declared blob size zero gets the
already-exhausted empty reader as its body — whose every read, the first
included, returns zero bytes and end-of-data — and no host stream reader
is created for it. -/
theorem fetch2http_zero_size_body (f : HostResponse) (h : f.blobSize = 0) :
    (fetch2http f).Body = BodyModel.emptyReader
    ∧ (∀ cs, (fetch2http f).Body ≠ BodyModel.hostStream cs)
    ∧ (∀ plen, emptyReaderRead plen = ([], some "EOF")) := by
  refine ⟨by simp [fetch2http, h], fun cs => by simp [fetch2http, h], fun plen => rfl⟩

/-- A host response with an empty blob. -/
def hostRespEmpty : HostResponse :=
  { status := 204, statusText := "No Content", headerEntries := []
    blobSize := 0, blobChunks := [] }

/-- C5 witness: the zero-size theorem at a concrete 204 response. -/
theorem fetch2http_zero_size_body_witness :
    (fetch2http hostRespEmpty).Body = BodyModel.emptyReader :=
  (fetch2http_zero_size_body hostRespEmpty rfl).1

end StructuredHttp
